import Mathlib

/-!
Shallow embedding of the instavideo-downloader backend, together with
theorems settling the frozen claims about its specification.

The embedding follows the JavaScript source:
* `src/utils/urlValidator.js` — platform table, `detectPlatform`;
* `src/services/videoProcessor.js` — `getYtDlpQualityFormat`,
  `extractAvailableQualities`, `downloadAndProcessVideo` (as an action
  trace over an oracle for the external processes);
* `src/services/jobQueue.js` — work items, the retry logic of
  `processJob`, and the queue/runner state machine;
* `src/routes/video.js` — the in-memory job store, the download route's
  defaulting, and the `DELETE /job/:jobId` handler;
* `src/services/cleanup.js` — `cleanupDirectory` and the sweep pass.
-/

namespace VideoDL

/-! ## Regular expressions

A Brzozowski-derivative matcher for the fragment of JavaScript `RegExp`
used by `urlValidator.js`: character predicates, concatenation,
alternation, Kleene star.  `RegExp.prototype.test` performs an unanchored
search, embedded here as `Reg.search`. -/

inductive Reg where
  | emp : Reg
  | eps : Reg
  | pcls : (Char → Bool) → Reg
  | cat : Reg → Reg → Reg
  | alt : Reg → Reg → Reg
  | star : Reg → Reg

def Reg.nullable : Reg → Bool
  | .emp => false
  | .eps => true
  | .pcls _ => false
  | .cat r s => r.nullable && s.nullable
  | .alt r s => r.nullable || s.nullable
  | .star _ => true

def Reg.derive : Reg → Char → Reg
  | .emp, _ => .emp
  | .eps, _ => .emp
  | .pcls p, c => if p c then .eps else .emp
  | .cat r s, c =>
      if r.nullable then .alt (.cat (r.derive c) s) (s.derive c)
      else .cat (r.derive c) s
  | .alt r s, c => .alt (r.derive c) (s.derive c)
  | .star r, c => .cat (r.derive c) (.star r)

/-- Does some prefix of the input match the regex? -/
def Reg.matchPre : Reg → List Char → Bool
  | r, [] => r.nullable
  | r, c :: cs => r.nullable || (r.derive c).matchPre cs

/-- Unanchored search, the semantics of `RegExp.prototype.test`. -/
def Reg.search : Reg → List Char → Bool
  | r, [] => r.nullable
  | r, c :: cs => r.matchPre (c :: cs) || r.search cs

/-! Combinators mirroring the regex syntax of the source patterns.  All
source patterns carry the `i` flag, so literal letters match both cases. -/

def rch (c : Char) : Reg := .pcls (fun x => x == c)

def rchI (c : Char) : Reg := .pcls (fun x => x == c || x == c.toUpper)

def rstr (s : String) : Reg := s.data.foldr (fun c r => .cat (rch c) r) .eps

def rstrI (s : String) : Reg := s.data.foldr (fun c r => .cat (rchI c) r) .eps

def ropt (r : Reg) : Reg := .alt r .eps

def rplus (r : Reg) : Reg := .cat r (.star r)

/-- The class `\d`. -/
def rdigit : Reg := .pcls (fun c => '0' ≤ c && c ≤ '9')

/-- The class `\w`. -/
def rword : Reg :=
  .pcls (fun c => ('a' ≤ c && c ≤ 'z') || ('A' ≤ c && c ≤ 'Z') ||
                  ('0' ≤ c && c ≤ '9') || c == '_')

/-- The class `[\w.-]`. -/
def rwordDotDash : Reg := .alt rword (.pcls (fun c => c == '.' || c == '-'))

/-- The class `[\w-]`. -/
def rwordDash : Reg := .alt rword (.pcls (fun c => c == '-'))

/-- The metacharacter `.` (any character except a line terminator). -/
def rdot : Reg := .pcls (fun c => c != '\n')

/-- The optional scheme part `(?:https?:\/\/)?` common to all patterns. -/
def rproto : Reg := ropt (.cat (rstrI "http") (.cat (ropt (rchI 's')) (rstr "://")))

/-- The optional `(?:www\.)?` part. -/
def rwww : Reg := ropt (rstrI "www.")

/-! ## Platform table (`SUPPORTED_PLATFORMS` in `urlValidator.js`) -/

structure Platform where
  name : String
  domains : List String
  patterns : List Reg

def tiktokPlatform : Platform where
  name := "TikTok"
  domains := ["tiktok.com", "vm.tiktok.com"]
  patterns :=
    [ .cat rproto (.cat rwww (.cat (rstrI "tiktok.com/@")
        (.cat (rplus rwordDotDash) (.cat (rstrI "/video/") (rplus rdigit))))),
      .cat rproto (.cat (rstrI "vm.tiktok.com/") (rplus rword)) ]

def instagramPlatform : Platform where
  name := "Instagram"
  domains := ["instagram.com"]
  patterns :=
    [ .cat rproto (.cat rwww (.cat (rstrI "instagram.com/p/") (rplus rwordDash))),
      .cat rproto (.cat rwww (.cat (rstrI "instagram.com/reel/") (rplus rwordDash))),
      .cat rproto (.cat rwww (.cat (rstrI "instagram.com/stories/")
        (.cat (rplus rwordDotDash) (.cat (rch '/') (rplus rdigit))))) ]

def youtubePlatform : Platform where
  name := "YouTube"
  domains := ["youtube.com", "youtu.be", "m.youtube.com"]
  patterns :=
    [ .cat rproto (.cat rwww (.cat (rstrI "youtube.com/watch?v=") (rplus rwordDash))),
      .cat rproto (.cat rwww (.cat (rstrI "youtube.com/embed/") (rplus rwordDash))),
      .cat rproto (.cat (rstrI "youtu.be/") (rplus rwordDash)),
      .cat rproto (.cat rwww (.cat (rstrI "youtube.com/v/") (rplus rwordDash))) ]

def twitterPlatform : Platform where
  name := "Twitter/X"
  domains := ["twitter.com", "x.com", "mobile.twitter.com"]
  patterns :=
    [ .cat rproto (.cat rwww (.cat (rstrI "twitter.com/")
        (.cat (rplus rword) (.cat (rstrI "/status/") (rplus rdigit))))),
      .cat rproto (.cat rwww (.cat (rstrI "x.com/")
        (.cat (rplus rword) (.cat (rstrI "/status/") (rplus rdigit))))),
      .cat rproto (.cat (rstrI "mobile.twitter.com/")
        (.cat (rplus rword) (.cat (rstrI "/status/") (rplus rdigit)))) ]

def facebookPlatform : Platform where
  name := "Facebook"
  domains := ["facebook.com", "fb.watch", "m.facebook.com"]
  patterns :=
    [ .cat rproto (.cat rwww (.cat (rstrI "facebook.com/")
        (.cat (.star rdot) (.cat (rstrI "/videos/") (rplus rdigit))))),
      .cat rproto (.cat rwww (.cat (rstrI "facebook.com/watch/?v=") (rplus rdigit))),
      .cat rproto (.cat (rstrI "fb.watch/") (rplus rwordDash)),
      .cat rproto (.cat rwww (.cat (rstrI "facebook.com/")
        (.cat (rplus rwordDotDash) (.cat (rstrI "/posts/") (rplus rdigit))))) ]

def snapchatPlatform : Platform where
  name := "Snapchat"
  domains := ["snapchat.com"]
  patterns :=
    [ .cat rproto (.cat rwww (.cat (rstrI "snapchat.com/add/") (rplus rwordDotDash))),
      .cat rproto (.cat (rstrI "story.snapchat.com/p/") (rplus rwordDash)) ]

def supportedPlatforms : List Platform :=
  [tiktokPlatform, instagramPlatform, youtubePlatform,
   twitterPlatform, facebookPlatform, snapchatPlatform]

/-! ## Platform matcher (`detectPlatform`) -/

/-- Substring containment, the semantics of `String.prototype.includes`. -/
def includesSub (needle hay : List Char) : Bool :=
  hay.tails.any (fun t => needle.isPrefixOf t)

/-- Lowercasing used by `url.toLowerCase()` before the domain check. -/
def lowerList (s : List Char) : List Char := s.map Char.toLower

/-- The domain test of the source: the lowercased URL contains one of the
platform's domain substrings. -/
def domainOk (p : Platform) (url : String) : Bool :=
  p.domains.any (fun d => includesSub d.data (lowerList url.data))

/-- The pattern test of the source: some pattern of the platform matches
the URL (unanchored, case-insensitive). -/
def patternOk (p : Platform) (url : String) : Bool :=
  p.patterns.any (fun r => r.search url.data)

def detectFrom : List Platform → String → String
  | [], _ => "unknown"
  | p :: ps, url =>
      if domainOk p url && patternOk p url then p.name else detectFrom ps url

/-- `detectPlatform` from `urlValidator.js`; the leading falsy-check on the
argument maps to the empty-string test. -/
def detectPlatform (url : String) : String :=
  if url.isEmpty then "unknown" else detectFrom supportedPlatforms url

/-! ## Quality-to-selector mapping (`getYtDlpQualityFormat`) -/

def getYtDlpQualityFormat (quality : String) : String :=
  if quality = "360p" then "best[height<=360]"
  else if quality = "720p" then "best[height<=720]"
  else if quality = "1080p" then "best[height<=1080]"
  else if quality = "original" then "best"
  else "best"

/-! ## Available quality tiers (`extractAvailableQualities`)

A declared format is represented by its optional `height` field; `none`
stands for an absent/undefined height.  JavaScript's `if (format.height)`
is falsy for `0` as well, hence the `h ≠ 0` guard. -/

/-- JavaScript `Set.prototype.add` on an insertion-ordered list. -/
def addTier (s : List String) (q : String) : List String :=
  if q ∈ s then s else s ++ [q]

def tierStep (s : List String) (h? : Option Nat) : List String :=
  match h? with
  | none => s
  | some h =>
      if h ≠ 0 then
        let s1 := if h ≤ 360 then addTier s "360p" else s
        let s2 := if h ≤ 720 then addTier s1 "720p" else s1
        let s3 := if h ≤ 1080 then addTier s2 "1080p" else s2
        if 1080 < h then addTier s3 "4K" else s3
      else s

def collectTiers (heights : List (Option Nat)) : List String :=
  heights.foldl tierStep []

/-- The comparator key of the final `.sort((a, b) => order[a] - order[b])`. -/
def tierOrder : String → Nat
  | "360p" => 1
  | "720p" => 2
  | "1080p" => 3
  | "4K" => 4
  | _ => 0

def tierLE (a b : String) : Prop := tierOrder a ≤ tierOrder b

instance : DecidableRel tierLE := fun a b => Nat.decLe (tierOrder a) (tierOrder b)

instance : IsTotal String tierLE := ⟨fun a b => Nat.le_total (tierOrder a) (tierOrder b)⟩

instance : IsTrans String tierLE := ⟨fun _ _ _ h1 h2 => Nat.le_trans h1 h2⟩

def extractAvailableQualities (heights : List (Option Nat)) : List String :=
  (collectTiers heights).insertionSort tierLE

/-! ## Job store (`jobs` map in `routes/video.js`)

The store is an association list from job identifier to record.  Only the
fields the claims mention are modelled. -/

inductive JStatus where
  | queued | processing | completed | failed | cancelled
deriving DecidableEq, Repr

structure JobRec where
  status : JStatus
  progress : Nat
  error : Option String
deriving DecidableEq, Repr

def Store : Type := List (String × JobRec)

def Store.lookup (s : Store) (id : String) : Option JobRec :=
  match s with
  | [] => none
  | (k, r) :: rest => if k = id then some r else Store.lookup rest id

/-- `jobs.set(id, rec)`: replace if present, append otherwise. -/
def Store.put (s : Store) (id : String) (r : JobRec) : Store :=
  match s with
  | [] => [(id, r)]
  | (k, r0) :: rest => if k = id then (k, r) :: rest else (k, r0) :: Store.put rest id r

/-- `jobs.delete(id)`: the binding of `id` is removed (a JavaScript `Map`
holds at most one binding per key). -/
def Store.erase (s : Store) (id : String) : Store :=
  match s with
  | [] => []
  | (k, r0) :: rest =>
      if k = id then Store.erase rest id else (k, r0) :: Store.erase rest id

/-- The `if (jobs.has(id)) { const r = jobs.get(id); …; jobs.set(id, r) }`
pattern shared by all job-record writes. -/
def modifyRec (s : Store) (id : String) (f : JobRec → JobRec) : Store :=
  match s.lookup id with
  | some r => s.put id (f r)
  | none => s

/-- Creation of the job entry by `POST /download` (status `queued`). -/
def createJob (s : Store) (id : String) : Store :=
  s.put id ⟨.queued, 0, none⟩

/-- The guarded status write at the start of `JobQueue.processJob`. -/
def startProcessing (s : Store) (id : String) : Store :=
  modifyRec s id (fun r => { r with status := .processing, progress := 5 })

/-- The `onProgress` callback write (progress/message only, no status). -/
def progressUpdate (s : Store) (id : String) (p : Nat) : Store :=
  modifyRec s id (fun r => { r with progress := p })

/-- The success write of `processJob`. -/
def completeJob (s : Store) (id : String) : Store :=
  modifyRec s id (fun r => { r with status := .completed, progress := 100 })

/-- The exhausted-attempts write of `processJob`. -/
def failJob (s : Store) (id : String) (err : String) : Store :=
  modifyRec s id (fun r => { r with status := .failed, error := some err })

/-- The `DELETE /api/video/job/:jobId` handler: 404 when unknown;
`cancelled` when the job is `processing` or `queued`; otherwise the record
is removed.  Returns the HTTP status together with the new store. -/
def cancelRoute (s : Store) (id : String) : Nat × Store :=
  match s.lookup id with
  | none => (404, s)
  | some r =>
      if r.status = .processing ∨ r.status = .queued then
        (200, s.put id { r with status := .cancelled })
      else
        (200, s.erase id)

/-! ## Work items and retry (`JobQueue` in `jobQueue.js`) -/

structure RetryOptions where
  attempts : Nat
  backoffDelay : Nat
deriving DecidableEq, Repr

/-- The retry options passed by `POST /download`:
`{attempts: 3, backoff: {type: 'exponential', delay: 5000}}`. -/
def routeRetryOptions : RetryOptions := ⟨3, 5000⟩

structure WorkItem where
  jobId : String
  opts : RetryOptions
  attempt : Nat
deriving DecidableEq, Repr

/-- `JobQueue.add`: the created work item always starts with
`attempt: 0`, also when re-enqueued by the retry path. -/
def JobQueue.add (jobId : String) (opts : RetryOptions) : WorkItem :=
  { jobId := jobId, opts := opts, attempt := 0 }

/-- One run of `processJob` on a work item whose processing always fails:
the attempt counter is incremented, then either a retry is scheduled after
`backoffDelay * 2 ^ (attempt - 1)` milliseconds — re-enqueueing via
`JobQueue.add`, which resets the counter — or the job is marked failed. -/
inductive FailOutcome where
  | retry (delayMs : Nat) (next : WorkItem)
  | fatal
deriving DecidableEq, Repr

def processJobAlwaysFail (w : WorkItem) : FailOutcome :=
  let a := w.attempt + 1
  if a < w.opts.attempts then
    .retry (w.opts.backoffDelay * 2 ^ (a - 1)) (JobQueue.add w.jobId w.opts)
  else
    .fatal

/-- Run up to `fuel` attempts of an always-failing work item, tracking the
number of attempts performed, the scheduled inter-attempt delays, and the
job-store status after the run (each attempt first sets `processing`; an
exhausted item sets `failed`). -/
def runAlwaysFail : Nat → WorkItem → JStatus → Nat × List Nat × JStatus
  | 0, _, st => (0, [], st)
  | fuel + 1, w, _ =>
      match processJobAlwaysFail w with
      | .fatal => (1, [], .failed)
      | .retry d next =>
          let r := runAlwaysFail fuel next .processing
          (r.1 + 1, d :: r.2.1, r.2.2)

/-! ## Runner/queue state machine (for the status-transition claims)

The coupled system of the FIFO queue, the single in-flight item, and the
job store.  The runner steps mirror `processQueue`/`processJob`; external
steps mirror the HTTP routes.  Retries enter at the back of the queue when
the deferred `setTimeout` callback fires. -/

def incAttempt (w : WorkItem) : WorkItem := { w with attempt := w.attempt + 1 }

structure SysState where
  store : Store
  queue : List WorkItem
  inflight : Option WorkItem

inductive SysStep : SysState → SysState → Prop where
  | create (s : SysState) (id : String) (opts : RetryOptions)
      (hfresh : s.store.lookup id = none)
      (hfreshq : ∀ w ∈ s.queue, w.jobId ≠ id)
      (hfreshi : ∀ w, s.inflight = some w → w.jobId ≠ id) :
      SysStep s ⟨createJob s.store id, s.queue ++ [JobQueue.add id opts], s.inflight⟩
  | cancel (s : SysState) (id : String) :
      SysStep s ⟨(cancelRoute s.store id).2, s.queue, s.inflight⟩
  | start (s : SysState) (w : WorkItem) (rest : List WorkItem)
      (hq : s.queue = w :: rest) (hidle : s.inflight = none) :
      SysStep s ⟨startProcessing s.store w.jobId, rest, some (incAttempt w)⟩
  | progressCb (s : SysState) (w : WorkItem) (p : Nat)
      (hin : s.inflight = some w) :
      SysStep s ⟨progressUpdate s.store w.jobId p, s.queue, s.inflight⟩
  | finishOk (s : SysState) (w : WorkItem)
      (hin : s.inflight = some w) :
      SysStep s ⟨completeJob s.store w.jobId, s.queue, none⟩
  | finishErrRetry (s : SysState) (w : WorkItem)
      (hin : s.inflight = some w) (hlt : w.attempt < w.opts.attempts) :
      SysStep s ⟨s.store, s.queue ++ [JobQueue.add w.jobId w.opts], none⟩
  | finishErrFatal (s : SysState) (w : WorkItem) (err : String)
      (hin : s.inflight = some w) (hge : ¬ w.attempt < w.opts.attempts) :
      SysStep s ⟨failJob s.store w.jobId err, s.queue, none⟩

inductive Reach : SysState → Prop where
  | init : Reach ⟨[], [], none⟩
  | step {s t : SysState} : Reach s → SysStep s t → Reach t

/-! ## Media processor (`downloadAndProcessVideo` in `videoProcessor.js`)

External effects are resolved by an oracle; the function returns the
job's outcome together with the trace of effect actions it performed, in
order.  The `finally` block always appends the recursive removal of the
per-job scratch directory; a failed removal only adds a warning action. -/

structure ProcOptions where
  quality : String
  removeWatermark : Bool
  format : String
deriving DecidableEq, Repr

/-- Destructuring defaults of `downloadAndProcessVideo` and of the
`POST /download` route body: `quality = 'best'`, `removeWatermark = true`,
`format = 'mp4'`. -/
def applyDownloadDefaults (q : Option String) (rw : Option Bool) (f : Option String) :
    ProcOptions :=
  { quality := q.getD "best", removeWatermark := rw.getD true, format := f.getD "mp4" }

structure ProcOracle where
  /-- Outcome of the yt-dlp fetch stage; on success, the container
  extension of the produced `video.<ext>` file. -/
  fetch : Except String String
  /-- Outcome of the FFmpeg transform stage. -/
  ffmpeg : Except String Unit
  /-- Outcome of the direct `fs.rename` relocation. -/
  rename : Except String Unit
  /-- Outcome of the final `fs.stat` on the output file (the size). -/
  stat : Except String Nat
  /-- Whether the recursive `fs.rm` of the scratch directory succeeds. -/
  rmOk : Bool

inductive PAct where
  | mkdirScratch (jobId : String)
  | ytdlpFetch (formatSelector : String)
  | ffmpegTransform (removeWatermark : Bool) (format : String)
  | renameToOutput
  | statOutput
  | rmScratch (jobId : String)
  | warnCleanupFailed
deriving DecidableEq, Repr

structure ProcResult where
  fileSize : Nat
  downloadUrl : String
deriving DecidableEq, Repr

def finishStat (jobId : String) (o : ProcOptions) (orc : ProcOracle)
    (acts : List PAct) : Except String ProcResult × List PAct :=
  match orc.stat with
  | .error e => (.error e, acts ++ [.statOutput])
  | .ok sz =>
      (.ok ⟨sz, "/downloads/" ++ jobId ++ "." ++ o.format⟩, acts ++ [.statOutput])

def downloadAndProcessVideo (jobId : String) (o : ProcOptions) (orc : ProcOracle) :
    Except String ProcResult × List PAct :=
  let acts0 := [PAct.mkdirScratch jobId, PAct.ytdlpFetch (getYtDlpQualityFormat o.quality)]
  let body : Except String ProcResult × List PAct :=
    match orc.fetch with
    | .error e => (.error e, acts0)
    | .ok _ext =>
        if o.removeWatermark || o.format != "mp4" then
          match orc.ffmpeg with
          | .error e => (.error e, acts0 ++ [.ffmpegTransform o.removeWatermark o.format])
          | .ok _ => finishStat jobId o orc (acts0 ++ [.ffmpegTransform o.removeWatermark o.format])
        else
          match orc.rename with
          | .error e => (.error e, acts0 ++ [.renameToOutput])
          | .ok _ => finishStat jobId o orc (acts0 ++ [.renameToOutput])
  (body.1, body.2 ++ [.rmScratch jobId] ++ (if orc.rmOk then [] else [.warnCleanupFailed]))

/-- Modelled from the spec: the transform stage is needed exactly when
watermark removal is requested or the requested output format differs from
the fetched file's container format.  (The source instead compares the
requested format against the literal `mp4`.) -/
def needsTransformSpec (removeWatermark : Bool) (format fetchedExt : String) : Bool :=
  removeWatermark || format != fetchedExt

/-! ## Retention sweeper (`CleanupService` in `cleanup.js`) -/

structure FSEntry where
  name : String
  mtimeMs : Int
  sizeBytes : Nat
  isDir : Bool
deriving DecidableEq, Repr

structure CleanStats where
  deleted : List FSEntry
  kept : List FSEntry
  bytesFreed : Nat
  deletedCount : Nat
deriving DecidableEq, Repr

/-- `CleanupService.cleanupDirectory`: a missing root (`none`, the ENOENT
case) is a no-op; otherwise every immediate entry whose modification-time
age strictly exceeds `maxAgeMs` is deleted (recursively for directories),
with the freed-byte counter accumulating plain-file sizes. -/
def cleanupDirectory (root : Option (List FSEntry)) (maxAgeMs nowMs : Int) : CleanStats :=
  match root with
  | none => ⟨[], [], 0, 0⟩
  | some entries =>
      let del := entries.filter (fun e => decide (maxAgeMs < nowMs - e.mtimeMs))
      let keep := entries.filter (fun e => !decide (maxAgeMs < nowMs - e.mtimeMs))
      ⟨del, keep, ((del.filter (fun e => !e.isDir)).map (·.sizeBytes)).sum, del.length⟩

/-- One sweep pass of `CleanupService.cleanup`: the downloads root with a
1-hour threshold, the processing root with a 30-minute threshold. -/
def cleanupPass (downloadsRoot processingRoot : Option (List FSEntry)) (nowMs : Int) :
    CleanStats × CleanStats :=
  (cleanupDirectory downloadsRoot (60 * 60 * 1000) nowMs,
   cleanupDirectory processingRoot (30 * 60 * 1000) nowMs)

/-! ## Store lemmas -/

theorem lookup_put_self (s : Store) (id : String) (r : JobRec) :
    (s.put id r).lookup id = some r := by
  induction s with
  | nil => simp [Store.put, Store.lookup]
  | cons kv rest ih =>
      obtain ⟨k, r0⟩ := kv
      by_cases hk : k = id <;> simp [Store.put, Store.lookup, hk, ih]

theorem lookup_put_ne (s : Store) (id id' : String) (r : JobRec) (hne : id' ≠ id) :
    (s.put id r).lookup id' = s.lookup id' := by
  induction s with
  | nil => simp [Store.put, Store.lookup, Ne.symm hne]
  | cons kv rest ih =>
      obtain ⟨k, r0⟩ := kv
      by_cases hk : k = id
      · subst hk
        simp [Store.put, Store.lookup, Ne.symm hne]
      · simp [Store.put, Store.lookup, hk, ih]

theorem lookup_erase_self (s : Store) (id : String) :
    (s.erase id).lookup id = none := by
  induction s with
  | nil => simp [Store.erase, Store.lookup]
  | cons kv rest ih =>
      obtain ⟨k, r0⟩ := kv
      by_cases hk : k = id <;> simp [Store.erase, Store.lookup, hk, ih]

theorem lookup_erase_ne (s : Store) (id id' : String) (hne : id' ≠ id) :
    (s.erase id).lookup id' = s.lookup id' := by
  induction s with
  | nil => simp [Store.erase, Store.lookup]
  | cons kv rest ih =>
      obtain ⟨k, r0⟩ := kv
      by_cases hk : k = id
      · subst hk
        simp [Store.erase, Store.lookup, Ne.symm hne, ih]
      · simp [Store.erase, Store.lookup, hk, ih]

theorem lookup_modifyRec_self (s : Store) (id : String) (f : JobRec → JobRec) :
    (modifyRec s id f).lookup id = (s.lookup id).map f := by
  unfold modifyRec
  cases h : s.lookup id with
  | none => exact h
  | some r => simp [lookup_put_self]

theorem lookup_modifyRec_ne (s : Store) (id id' : String) (f : JobRec → JobRec)
    (hne : id' ≠ id) :
    (modifyRec s id f).lookup id' = s.lookup id' := by
  unfold modifyRec
  cases h : s.lookup id with
  | none => rfl
  | some r => exact lookup_put_ne _ _ _ _ hne

/-! ## C4: quality-to-format-selector mapping -/

/-- C4: the quality-to-format-selector mapping is a total deterministic
function: `360p`, `720p` and `1080p` map to their height-bounded
selectors, while `original` and every other input (including `best`) map
to the unconstrained selector `best`. -/
theorem qualityFormat_total_deterministic :
    getYtDlpQualityFormat "360p" = "best[height<=360]"
    ∧ getYtDlpQualityFormat "720p" = "best[height<=720]"
    ∧ getYtDlpQualityFormat "1080p" = "best[height<=1080]"
    ∧ getYtDlpQualityFormat "original" = "best"
    ∧ ∀ q : String, q ≠ "360p" → q ≠ "720p" → q ≠ "1080p" → q ≠ "original" →
        getYtDlpQualityFormat q = "best" := by
  refine ⟨rfl, rfl, rfl, rfl, ?_⟩
  intro q h1 h2 h3 h4
  simp [getYtDlpQualityFormat, h1, h2, h3, h4]

/-- Witness: the input `best` hits the default branch. -/
theorem qualityFormat_total_deterministic_witness :
    getYtDlpQualityFormat "best" = "best" :=
  qualityFormat_total_deterministic.2.2.2.2 "best"
    (by decide) (by decide) (by decide) (by decide)

/-! ## C7: cancelling a terminal job -/

/-- C7: deleting a job whose status is terminal (`completed` or `failed`)
removes the record from the store without any status write (the record of
every other job is untouched), and a delete request for an unknown job
identifier answers 404 and leaves the store unchanged. -/
theorem cancel_terminal_and_unknown (s : Store) (id : String) :
    (∀ r, s.lookup id = some r → (r.status = .completed ∨ r.status = .failed) →
      (cancelRoute s id).1 = 200
      ∧ (cancelRoute s id).2 = s.erase id
      ∧ ((cancelRoute s id).2).lookup id = none
      ∧ ∀ j, j ≠ id → ((cancelRoute s id).2).lookup j = s.lookup j)
    ∧ (s.lookup id = none → (cancelRoute s id).1 = 404 ∧ (cancelRoute s id).2 = s) := by
  constructor
  · intro r hl ht
    have hcond : ¬ (r.status = .processing ∨ r.status = .queued) := by
      rcases ht with h | h <;> rw [h] <;> intro hc <;> rcases hc with hc | hc <;> cases hc
    unfold cancelRoute
    rw [hl]
    simp only [hcond, if_false]
    exact ⟨trivial, trivial, lookup_erase_self s id, fun j hj => lookup_erase_ne s id j hj⟩
  · intro hl
    unfold cancelRoute
    rw [hl]
    exact ⟨rfl, rfl⟩

/-- Witness: deleting the only (completed) job empties the store. -/
theorem cancel_terminal_and_unknown_witness :
    (cancelRoute [("a", ⟨.completed, 100, none⟩)] "a").1 = 200
    ∧ ((cancelRoute [("a", ⟨.completed, 100, none⟩)] "a").2).lookup "a" = none :=
  ⟨((cancel_terminal_and_unknown [("a", ⟨.completed, 100, none⟩)] "a").1
      ⟨.completed, 100, none⟩ (by decide) (Or.inl rfl)).1,
   ((cancel_terminal_and_unknown [("a", ⟨.completed, 100, none⟩)] "a").1
      ⟨.completed, 100, none⟩ (by decide) (Or.inl rfl)).2.2.1⟩

/-! ## C9: retention sweeper age thresholds -/

/-- C9: in one sweep pass, an immediate entry of a watched directory is
deleted exactly when its modification-time age strictly exceeds the
per-directory threshold — one hour for the downloads root, thirty minutes
for the processing root — and a missing watched root is a no-op. -/
theorem cleanup_age_threshold (d? p? : Option (List FSEntry)) (nowMs : Int) :
    (∀ ls, d? = some ls → ∀ e ∈ ls,
      (e ∈ (cleanupPass d? p? nowMs).1.deleted ↔ nowMs - e.mtimeMs > 3600000)
      ∧ (e ∈ (cleanupPass d? p? nowMs).1.kept ↔ ¬ nowMs - e.mtimeMs > 3600000))
    ∧ (∀ ls, p? = some ls → ∀ e ∈ ls,
      (e ∈ (cleanupPass d? p? nowMs).2.deleted ↔ nowMs - e.mtimeMs > 1800000)
      ∧ (e ∈ (cleanupPass d? p? nowMs).2.kept ↔ ¬ nowMs - e.mtimeMs > 1800000))
    ∧ (d? = none → (cleanupPass d? p? nowMs).1 = ⟨[], [], 0, 0⟩)
    ∧ (p? = none → (cleanupPass d? p? nowMs).2 = ⟨[], [], 0, 0⟩) := by
  refine ⟨?_, ?_, ?_, ?_⟩
  · rintro ls rfl e he
    constructor
    · simp [cleanupPass, cleanupDirectory, List.mem_filter, he]
    · simp [cleanupPass, cleanupDirectory, List.mem_filter, he]
  · rintro ls rfl e he
    constructor
    · simp [cleanupPass, cleanupDirectory, List.mem_filter, he]
    · simp [cleanupPass, cleanupDirectory, List.mem_filter, he]
  · rintro rfl
    rfl
  · rintro rfl
    rfl

/-- Witness: with `now = 10000000` ms, a processing entry 31 minutes old is
deleted, a downloads entry 59 minutes old is retained, and a downloads
entry 61 minutes old is deleted. -/
theorem cleanup_age_threshold_witness :
    (⟨"old.mp4", 6340000, 9, false⟩ : FSEntry)
      ∈ (cleanupPass (some [⟨"new.mp4", 6460000, 7, false⟩, ⟨"old.mp4", 6340000, 9, false⟩])
          (some [⟨"job", 8140000, 5, true⟩]) 10000000).1.deleted
    ∧ (⟨"new.mp4", 6460000, 7, false⟩ : FSEntry)
      ∈ (cleanupPass (some [⟨"new.mp4", 6460000, 7, false⟩, ⟨"old.mp4", 6340000, 9, false⟩])
          (some [⟨"job", 8140000, 5, true⟩]) 10000000).1.kept
    ∧ (⟨"job", 8140000, 5, true⟩ : FSEntry)
      ∈ (cleanupPass (some [⟨"new.mp4", 6460000, 7, false⟩, ⟨"old.mp4", 6340000, 9, false⟩])
          (some [⟨"job", 8140000, 5, true⟩]) 10000000).2.deleted := by
  have h := cleanup_age_threshold
    (some [⟨"new.mp4", 6460000, 7, false⟩, ⟨"old.mp4", 6340000, 9, false⟩])
    (some [⟨"job", 8140000, 5, true⟩]) 10000000
  refine ⟨?_, ?_, ?_⟩
  · exact ((h.1 _ rfl ⟨"old.mp4", 6340000, 9, false⟩ (by simp)).1).mpr (by decide)
  · exact ((h.1 _ rfl ⟨"new.mp4", 6460000, 7, false⟩ (by simp)).2).mpr (by decide)
  · exact ((h.2.1 _ rfl ⟨"job", 8140000, 5, true⟩ (by simp)).1).mpr (by decide)

/-! ## C8: unconditional scratch cleanup -/

/-- C8: for every job execution the per-job scratch directory removal is
performed after the job settles, whatever the outcome, and whether that
removal succeeds has no effect on the job's outcome (a success result is
still returned, a failure still propagates its original error). -/
theorem scratch_cleanup_unconditional (jobId : String) (o : ProcOptions) (orc : ProcOracle) :
    PAct.rmScratch jobId ∈ (downloadAndProcessVideo jobId o orc).2
    ∧ ∀ b, (downloadAndProcessVideo jobId o { orc with rmOk := b }).1
        = (downloadAndProcessVideo jobId o orc).1 := by
  obtain ⟨f, fm, rn, stt, rm⟩ := orc
  constructor
  · cases f <;> cases fm <;> cases rn <;> cases stt <;>
      by_cases hw : (o.removeWatermark || o.format != "mp4") = true <;>
      simp [downloadAndProcessVideo, finishStat, hw]
  · intro b
    rfl

/-! ## C10: defaults of a URL-only submission -/

/-- C10: a download submission omitting the optional fields gets the
defaults `quality = best`, `removeWatermark = true`, `format = mp4`, and
consequently — whenever the fetch stage succeeds — the watermark-removal
transform stage is invoked. -/
theorem urlOnly_defaults_run_watermark_transform :
    applyDownloadDefaults none none none = ⟨"best", true, "mp4"⟩
    ∧ ∀ (jobId : String) (orc : ProcOracle) (ext : String), orc.fetch = .ok ext →
      PAct.ffmpegTransform true "mp4"
        ∈ (downloadAndProcessVideo jobId (applyDownloadDefaults none none none) orc).2 := by
  refine ⟨rfl, ?_⟩
  intro jobId orc ext hf
  obtain ⟨f, fm, rn, stt, rm⟩ := orc
  cases hf
  cases fm <;> cases stt <;>
    simp [downloadAndProcessVideo, finishStat, applyDownloadDefaults]

/-- Witness: with a successful fetch of an mp4 container, the defaulted
options run the watermark transform. -/
theorem urlOnly_defaults_run_watermark_transform_witness :
    PAct.ffmpegTransform true "mp4"
      ∈ (downloadAndProcessVideo "j" (applyDownloadDefaults none none none)
          ⟨.ok "mp4", .ok (), .ok (), .ok 5, true⟩).2 :=
  urlOnly_defaults_run_watermark_transform.2 "j" ⟨.ok "mp4", .ok (), .ok (), .ok 5, true⟩
    "mp4" rfl

/-! ## C3: when the transform stage runs -/

/-- C3 (amended): when the fetch stage succeeds, the transform stage is
invoked iff watermark removal is requested or the requested output format
differs from the literal `mp4` (the code never consults the fetched
container format); when neither holds, the fetched file is renamed
directly to the output path and no transcode process is invoked. -/
theorem transform_iff_watermark_or_nonMp4 (jobId : String) (o : ProcOptions)
    (orc : ProcOracle) (ext : String) (hf : orc.fetch = .ok ext) :
    (PAct.ffmpegTransform o.removeWatermark o.format
        ∈ (downloadAndProcessVideo jobId o orc).2
      ↔ (o.removeWatermark = true ∨ o.format ≠ "mp4"))
    ∧ (o.removeWatermark = false → o.format = "mp4" →
        PAct.renameToOutput ∈ (downloadAndProcessVideo jobId o orc).2
        ∧ ∀ rw fmt, PAct.ffmpegTransform rw fmt ∉ (downloadAndProcessVideo jobId o orc).2) := by
  obtain ⟨f, fm, rn, stt, rm⟩ := orc
  cases hf
  have hbool : ((o.removeWatermark || o.format != "mp4") = true)
      ↔ (o.removeWatermark = true ∨ o.format ≠ "mp4") := by
    simp [bne_iff_ne]
  constructor
  · by_cases hw : (o.removeWatermark || o.format != "mp4") = true
    · have hrhs : o.removeWatermark = true ∨ o.format ≠ "mp4" := hbool.mp hw
      cases fm <;> cases stt <;>
        simp [downloadAndProcessVideo, finishStat, hw, hrhs]
    · have hrhs : ¬ (o.removeWatermark = true ∨ o.format ≠ "mp4") := fun hc => hw (hbool.mpr hc)
      cases rn <;> cases stt <;>
        simp [downloadAndProcessVideo, finishStat, hw, hrhs]
  · intro hrw hfmt
    have hw : (o.removeWatermark || o.format != "mp4") = false := by
      rw [hrw, hfmt]
      rfl
    cases rn <;> cases stt <;>
      simp [downloadAndProcessVideo, finishStat, hw]

/-- Witness: with watermark removal requested, the transform stage runs. -/
theorem transform_iff_watermark_or_nonMp4_witness :
    PAct.ffmpegTransform true "mp4"
      ∈ (downloadAndProcessVideo "j" ⟨"best", true, "mp4"⟩
          ⟨.ok "mp4", .ok (), .ok (), .ok 5, true⟩).2 :=
  (transform_iff_watermark_or_nonMp4 "j" ⟨"best", true, "mp4"⟩
      ⟨.ok "mp4", .ok (), .ok (), .ok 5, true⟩ "mp4" rfl).1.mpr (Or.inl rfl)

/-- C3 counterexample: with watermark removal off and requested format
`mp4`, a fetch producing a `webm` container makes the spec-modelled
predicate demand a transform, yet the code performs no transcode
invocation at all and renames the fetched file directly. -/
theorem transform_container_counterexample :
    needsTransformSpec false "mp4" "webm" = true
    ∧ (downloadAndProcessVideo "job1" ⟨"best", false, "mp4"⟩
        ⟨.ok "webm", .ok (), .ok (), .ok 1000, true⟩).2
      = [.mkdirScratch "job1", .ytdlpFetch "best", .renameToOutput, .statOutput,
         .rmScratch "job1"] :=
  ⟨rfl, rfl⟩

/-! ## C1: the retry law -/

theorem runAlwaysFail_route_never_failed (fuel : Nat) (st : JStatus) (h : st ≠ .failed) :
    (runAlwaysFail fuel (JobQueue.add "job-1" routeRetryOptions) st).2.2 ≠ .failed := by
  induction fuel generalizing st with
  | zero => simpa [runAlwaysFail] using h
  | succ n ih =>
      have hstep : processJobAlwaysFail (JobQueue.add "job-1" routeRetryOptions)
          = .retry 5000 (JobQueue.add "job-1" routeRetryOptions) := rfl
      simp only [runAlwaysFail, hstep]
      exact ih .processing (by simp)

/-- C1 (code divergence): a work item enqueued by the download route with
max attempts 3 re-enqueues itself through `JobQueue.add` on every failure,
which resets the attempt counter to 0; consequently an always-failing item
is attempted a 4th time (and beyond), every scheduled delay is the 5000 ms
base delay (never 2×base), and the job never reaches status `failed`. -/
theorem retry_counter_resets_and_never_fails :
    (JobQueue.add "job-1" routeRetryOptions).attempt = 0
    ∧ processJobAlwaysFail (JobQueue.add "job-1" routeRetryOptions)
        = .retry 5000 (JobQueue.add "job-1" routeRetryOptions)
    ∧ runAlwaysFail 4 (JobQueue.add "job-1" routeRetryOptions) .queued
        = (4, [5000, 5000, 5000, 5000], .processing)
    ∧ ∀ fuel, (runAlwaysFail fuel (JobQueue.add "job-1" routeRetryOptions) .queued).2.2
        ≠ JStatus.failed :=
  ⟨rfl, rfl, rfl, fun fuel => runAlwaysFail_route_never_failed fuel .queued (by simp)⟩

/-! ## C5: available quality tiers -/

/-- The per-tier condition of the cumulative `if` chain in
`extractAvailableQualities`. -/
def tierFor (x : String) (h : Nat) : Prop :=
  (x = "360p" ∧ h ≤ 360) ∨ (x = "720p" ∧ h ≤ 720)
  ∨ (x = "1080p" ∧ h ≤ 1080) ∨ (x = "4K" ∧ 1080 < h)

theorem mem_addTier {s : List String} {q x : String} :
    x ∈ addTier s q ↔ x ∈ s ∨ x = q := by
  unfold addTier
  by_cases hq : q ∈ s
  · rw [if_pos hq]
    constructor
    · exact Or.inl
    · rintro (hx | rfl)
      · exact hx
      · exact hq
  · rw [if_neg hq]
    simp

theorem nodup_addTier {s : List String} {q : String} (hs : s.Nodup) :
    (addTier s q).Nodup := by
  unfold addTier
  by_cases hq : q ∈ s
  · rwa [if_pos hq]
  · rw [if_neg hq]
    simpa [List.nodup_append] using ⟨hs, hq⟩

theorem mem_tierStep {s : List String} {h? : Option Nat} {x : String} :
    x ∈ tierStep s h? ↔ x ∈ s ∨ ∃ v, h? = some v ∧ v ≠ 0 ∧ tierFor x v := by
  cases h? with
  | none => simp [tierStep]
  | some v =>
      by_cases h0 : v = 0
      · subst h0
        simp [tierStep, tierFor]
      · by_cases h1 : v ≤ 360 <;> by_cases h2 : v ≤ 720 <;> by_cases h3 : v ≤ 1080 <;>
          first
            | omega
            | (have h4 : ¬ 1080 < v := by omega
               simp [tierStep, tierFor, h0, h1, h2, h3, h4, mem_addTier, or_assoc])
            | (have h4 : 1080 < v := by omega
               simp [tierStep, tierFor, h0, h1, h2, h3, h4, mem_addTier, or_assoc])

theorem nodup_tierStep {s : List String} {h? : Option Nat} (hs : s.Nodup) :
    (tierStep s h?).Nodup := by
  cases h? with
  | none => exact hs
  | some v =>
      by_cases h0 : v = 0
      · subst h0
        simpa [tierStep] using hs
      · simp only [tierStep, h0, ne_eq, not_false_iff, if_pos]
        split_ifs <;>
          first
            | exact hs
            | exact nodup_addTier hs
            | exact nodup_addTier (nodup_addTier hs)
            | exact nodup_addTier (nodup_addTier (nodup_addTier hs))
            | exact nodup_addTier (nodup_addTier (nodup_addTier (nodup_addTier hs)))

theorem mem_foldl_tierStep (hs : List (Option Nat)) (s : List String) (x : String) :
    x ∈ hs.foldl tierStep s
      ↔ x ∈ s ∨ ∃ v, (some v) ∈ hs ∧ v ≠ 0 ∧ tierFor x v := by
  induction hs generalizing s with
  | nil => simp
  | cons h rest ih =>
      simp only [List.foldl_cons, ih, mem_tierStep]
      constructor
      · rintro ((hx | ⟨v, hv, h0, hfor⟩) | ⟨v, hv, h0, hfor⟩)
        · exact Or.inl hx
        · exact Or.inr ⟨v, by simp [hv], h0, hfor⟩
        · exact Or.inr ⟨v, by simp [hv], h0, hfor⟩
      · rintro (hx | ⟨v, hv, h0, hfor⟩)
        · exact Or.inl (Or.inl hx)
        · rcases List.mem_cons.mp hv with hv | hv
          · exact Or.inl (Or.inr ⟨v, hv.symm, h0, hfor⟩)
          · exact Or.inr ⟨v, hv, h0, hfor⟩

theorem mem_collectTiers (hs : List (Option Nat)) (x : String) :
    x ∈ collectTiers hs ↔ ∃ v, (some v) ∈ hs ∧ v ≠ 0 ∧ tierFor x v := by
  unfold collectTiers
  rw [mem_foldl_tierStep]
  simp

theorem nodup_collectTiers (hs : List (Option Nat)) : (collectTiers hs).Nodup := by
  unfold collectTiers
  generalize hacc : ([] : List String) = acc
  have hnd : acc.Nodup := by rw [← hacc]; exact List.nodup_nil
  clear hacc
  induction hs generalizing acc with
  | nil => exact hnd
  | cons h rest ih => exact ih _ (nodup_tierStep hnd)

theorem mem_extractAvailableQualities (hs : List (Option Nat)) (x : String) :
    x ∈ extractAvailableQualities hs ↔ ∃ v, (some v) ∈ hs ∧ v ≠ 0 ∧ tierFor x v := by
  unfold extractAvailableQualities
  rw [List.mem_insertionSort, mem_collectTiers]

theorem tierFor_mem_four {x : String} {v : Nat} (h : tierFor x v) :
    x = "360p" ∨ x = "720p" ∨ x = "1080p" ∨ x = "4K" := by
  rcases h with ⟨rfl, _⟩ | ⟨rfl, _⟩ | ⟨rfl, _⟩ | ⟨rfl, _⟩ <;> simp

/-- C5: the derived list of available quality tiers satisfies, for every
list of declared (nonzero) format heights: a tier is present exactly when
some declared height meets its cumulative bound (`≤360`→360p, `≤720`→720p,
`≤1080`→1080p, `>1080`→4K), only the four tier names occur, and the list
is strictly ascending in tier order — hence deduplicated; formats without
a declared height contribute nothing. -/
theorem availableQualities_characterization (heights : List (Option Nat))
    (hz : ∀ h ∈ heights, h ≠ some 0) :
    ("360p" ∈ extractAvailableQualities heights ↔ ∃ v, some v ∈ heights ∧ v ≤ 360)
    ∧ ("720p" ∈ extractAvailableQualities heights ↔ ∃ v, some v ∈ heights ∧ v ≤ 720)
    ∧ ("1080p" ∈ extractAvailableQualities heights ↔ ∃ v, some v ∈ heights ∧ v ≤ 1080)
    ∧ ("4K" ∈ extractAvailableQualities heights ↔ ∃ v, some v ∈ heights ∧ 1080 < v)
    ∧ (∀ x ∈ extractAvailableQualities heights,
        x = "360p" ∨ x = "720p" ∨ x = "1080p" ∨ x = "4K")
    ∧ List.Sorted (fun a b => tierOrder a < tierOrder b) (extractAvailableQualities heights)
    ∧ (extractAvailableQualities heights).Nodup := by
  have hnd : (extractAvailableQualities heights).Nodup := by
    unfold extractAvailableQualities
    exact (List.perm_insertionSort tierLE (collectTiers heights)).nodup_iff.mpr
      (nodup_collectTiers heights)
  have hsub : ∀ x ∈ extractAvailableQualities heights,
      x = "360p" ∨ x = "720p" ∨ x = "1080p" ∨ x = "4K" := by
    intro x hx
    obtain ⟨v, _, _, hfor⟩ := (mem_extractAvailableQualities heights x).mp hx
    exact tierFor_mem_four hfor
  have hsorted : List.Sorted tierLE (extractAvailableQualities heights) :=
    List.sorted_insertionSort tierLE (collectTiers heights)
  have hstrict : List.Sorted (fun a b => tierOrder a < tierOrder b)
      (extractAvailableQualities heights) := by
    have hpair := List.Pairwise.and hsorted hnd
    refine hpair.imp_of_mem ?_
    intro a b ha hb hab
    obtain ⟨hle, hne⟩ := hab
    rcases hsub a ha with rfl | rfl | rfl | rfl <;>
      rcases hsub b hb with rfl | rfl | rfl | rfl <;>
      simp_all [tierLE, tierOrder]
  have hmem : ∀ x, x ∈ extractAvailableQualities heights
      ↔ ∃ v, some v ∈ heights ∧ v ≠ 0 ∧ tierFor x v :=
    mem_extractAvailableQualities heights
  refine ⟨?_, ?_, ?_, ?_, hsub, hstrict, hnd⟩
  · rw [hmem]
    constructor
    · rintro ⟨v, hv, _, hfor⟩
      simp only [tierFor] at hfor
      simp at hfor
      exact ⟨v, hv, hfor⟩
    · rintro ⟨v, hv, hb⟩
      exact ⟨v, hv, fun h => hz _ hv (by rw [h]), Or.inl ⟨rfl, hb⟩⟩
  · rw [hmem]
    constructor
    · rintro ⟨v, hv, _, hfor⟩
      simp only [tierFor] at hfor
      simp at hfor
      exact ⟨v, hv, hfor⟩
    · rintro ⟨v, hv, hb⟩
      exact ⟨v, hv, fun h => hz _ hv (by rw [h]), Or.inr (Or.inl ⟨rfl, hb⟩)⟩
  · rw [hmem]
    constructor
    · rintro ⟨v, hv, _, hfor⟩
      simp only [tierFor] at hfor
      simp at hfor
      exact ⟨v, hv, hfor⟩
    · rintro ⟨v, hv, hb⟩
      exact ⟨v, hv, fun h => hz _ hv (by rw [h]), Or.inr (Or.inr (Or.inl ⟨rfl, hb⟩))⟩
  · rw [hmem]
    constructor
    · rintro ⟨v, hv, _, hfor⟩
      simp only [tierFor] at hfor
      simp at hfor
      exact ⟨v, hv, hfor⟩
    · rintro ⟨v, hv, hb⟩
      exact ⟨v, hv, fun h => hz _ hv (by rw [h]),
        Or.inr (Or.inr (Or.inr ⟨rfl, hb⟩))⟩

/-- Witness: heights 300 and 1440 yield all four tiers in ascending
order. -/
theorem availableQualities_characterization_witness :
    "4K" ∈ extractAvailableQualities [some 300, some 1440]
    ∧ "360p" ∈ extractAvailableQualities [some 300, some 1440] :=
  ⟨((availableQualities_characterization [some 300, some 1440]
      (by decide)).2.2.2.1).mpr ⟨1440, by simp, by decide⟩,
   ((availableQualities_characterization [some 300, some 1440]
      (by decide)).1).mpr ⟨300, by simp, by decide⟩⟩

/-! ## C6: platform detection -/

theorem detectFrom_sound (ps : List Platform) (url : String)
    (h : detectFrom ps url ≠ "unknown") :
    ∃ p ∈ ps, detectFrom ps url = p.name
      ∧ domainOk p url = true ∧ patternOk p url = true := by
  induction ps with
  | nil => exact absurd rfl h
  | cons p rest ih =>
      by_cases hc : (domainOk p url && patternOk p url) = true
      · obtain ⟨hd, hp⟩ := Bool.and_eq_true _ _ ▸ hc
        refine ⟨p, List.mem_cons_self p rest, ?_, hd, hp⟩
        simp [detectFrom, hc]
      · have hred : detectFrom (p :: rest) url = detectFrom rest url := by
          simp [detectFrom, hc]
        rw [hred] at h ⊢
        obtain ⟨q, hq, h1, h2, h3⟩ := ih h
        exact ⟨q, List.mem_cons_of_mem p hq, h1, h2, h3⟩

theorem detectFrom_unknown (ps : List Platform) (url : String)
    (h : ∀ p ∈ ps, ¬ (domainOk p url = true ∧ patternOk p url = true)) :
    detectFrom ps url = "unknown" := by
  induction ps with
  | nil => rfl
  | cons p rest ih =>
      have hc : ¬ (domainOk p url && patternOk p url) = true := by
        intro hc
        exact h p (List.mem_cons_self p rest) (Bool.and_eq_true _ _ ▸ hc)
      have hred : detectFrom (p :: rest) url = detectFrom rest url := by
        simp [detectFrom, hc]
      rw [hred]
      exact ih (fun q hq => h q (List.mem_cons_of_mem p hq))

/-- C6 (amended): `detect` returns a platform name only when the URL both
contains one of that platform's domain substrings (case-insensitively) and
matches one of that platform's patterns, and it returns `unknown` whenever
no platform satisfies both conditions.  (A URL containing one platform's
domain substring but matching none of its patterns is not necessarily
`unknown`: a later platform whose domain and pattern both match can still
claim it.) -/
theorem detect_requires_domain_and_pattern (url : String) :
    (detectPlatform url ≠ "unknown" →
      ∃ p ∈ supportedPlatforms, detectPlatform url = p.name
        ∧ domainOk p url = true ∧ patternOk p url = true)
    ∧ ((∀ p ∈ supportedPlatforms, ¬ (domainOk p url = true ∧ patternOk p url = true)) →
      detectPlatform url = "unknown") := by
  unfold detectPlatform
  by_cases he : url.isEmpty
  · simp [he]
  · simp only [he, if_false]
    exact ⟨detectFrom_sound supportedPlatforms url,
           detectFrom_unknown supportedPlatforms url⟩

/-- Witness: `https://www.tiktok.com/foo` contains the TikTok domain but
matches no pattern of any platform, so detection yields `unknown`. -/
theorem detect_requires_domain_and_pattern_witness :
    detectPlatform "https://www.tiktok.com/foo" = "unknown" :=
  (detect_requires_domain_and_pattern "https://www.tiktok.com/foo").2 (by decide)

/-- C6 counterexample: the URL `https://tiktok.com/youtu.be/x` contains the
registered TikTok domain substring `tiktok.com` and matches no TikTok
pattern, yet `detect` returns `YouTube`, not `unknown`. -/
theorem detect_domain_without_pattern_counterexample :
    tiktokPlatform ∈ supportedPlatforms
    ∧ "tiktok.com" ∈ tiktokPlatform.domains
    ∧ domainOk tiktokPlatform "https://tiktok.com/youtu.be/x" = true
    ∧ patternOk tiktokPlatform "https://tiktok.com/youtu.be/x" = false
    ∧ detectPlatform "https://tiktok.com/youtu.be/x" = "YouTube" := by
  refine ⟨by simp [supportedPlatforms], by simp [tiktokPlatform], by decide, by decide, by decide⟩

/-! ## C2: status transitions of the runner/store system -/

theorem lookup_put (s : Store) (id : String) (r : JobRec) (id' : String) :
    (s.put id r).lookup id' = if id' = id then some r else s.lookup id' := by
  by_cases h : id' = id
  · subst h
    rw [if_pos rfl]
    exact lookup_put_self s id' r
  · rw [if_neg h]
    exact lookup_put_ne s id id' r h

theorem lookup_modifyRec (s : Store) (id : String) (f : JobRec → JobRec) (id' : String) :
    (modifyRec s id f).lookup id' =
      if id' = id then (s.lookup id).map f else s.lookup id' := by
  by_cases h : id' = id
  · subst h
    rw [if_pos rfl]
    exact lookup_modifyRec_self s id' f
  · rw [if_neg h]
    exact lookup_modifyRec_ne s id id' f h

theorem lookup_cancelRoute_ne (s : Store) (id id' : String) (h : id' ≠ id) :
    ((cancelRoute s id).2).lookup id' = s.lookup id' := by
  unfold cancelRoute
  cases hl : s.lookup id with
  | none => rfl
  | some r =>
      by_cases hc : r.status = .processing ∨ r.status = .queued
      · simp [hc, lookup_put_ne _ _ _ _ h]
      · simp [hc, lookup_erase_ne _ _ _ h]

theorem lookup_cancelRoute_self (s : Store) (id : String) :
    ((cancelRoute s id).2).lookup id =
      match s.lookup id with
      | none => none
      | some r =>
          if r.status = .processing ∨ r.status = .queued then
            some { r with status := .cancelled }
          else none := by
  unfold cancelRoute
  cases hl : s.lookup id with
  | none => exact hl
  | some r =>
      by_cases hc : r.status = .processing ∨ r.status = .queued
      · simp [hc, lookup_put_self]
      · simp [hc, lookup_erase_self]

def inflightIds (s : SysState) : List String :=
  match s.inflight with
  | some w => [w.jobId]
  | none => []

def itemIds (s : SysState) : List String :=
  inflightIds s ++ s.queue.map (fun w => w.jobId)

/-- Every pending or in-flight work item belongs to a job whose record, if
present, is not in a terminal success/failure state. -/
def NonTerminalItems (s : SysState) : Prop :=
  ∀ id ∈ itemIds s, ∀ r, s.store.lookup id = some r →
    r.status ≠ .completed ∧ r.status ≠ .failed

/-- The in-flight item's job record, if present, is `processing` or
`cancelled`. -/
def InflightStatus (s : SysState) : Prop :=
  ∀ w, s.inflight = some w → ∀ r, s.store.lookup w.jobId = some r →
    r.status = .processing ∨ r.status = .cancelled

/-- At most one pending/in-flight work item per job identifier. -/
def UniqueItems (s : SysState) : Prop := (itemIds s).Nodup

def SysInv (s : SysState) : Prop := UniqueItems s ∧ NonTerminalItems s ∧ InflightStatus s

theorem mem_inflightIds {s : SysState} {id : String} :
    id ∈ inflightIds s ↔ ∃ w, s.inflight = some w ∧ w.jobId = id := by
  cases h : s.inflight <;> simp [inflightIds, h, eq_comm]

theorem sysInv_step {s t : SysState} (hinv : SysInv s) (hst : SysStep s t) : SysInv t := by
  obtain ⟨hu, hnt, hin⟩ := hinv
  cases hst with
  | create id opts hfresh hfreshq hfreshi =>
      have hids : itemIds ⟨createJob s.store id, s.queue ++ [JobQueue.add id opts], s.inflight⟩
          = inflightIds s ++ (s.queue.map (fun w => w.jobId) ++ [id]) := by
        simp [itemIds, inflightIds, JobQueue.add]
      have hperm : List.Perm (inflightIds s ++ (s.queue.map (fun w => w.jobId) ++ [id]))
          (id :: itemIds s) :=
        List.Perm.trans
          (List.Perm.append_left _ (List.perm_append_singleton _ _))
          List.perm_middle
      have hnotmem : id ∉ itemIds s := by
        intro hmem
        rcases List.mem_append.mp hmem with hmem | hmem
        · obtain ⟨w, hw, hwid⟩ := mem_inflightIds.mp hmem
          exact hfreshi w hw hwid
        · obtain ⟨w, hwq, hwid⟩ := List.mem_map.mp hmem
          exact hfreshq w hwq hwid
      refine ⟨?_, ?_, ?_⟩
      · show (itemIds _).Nodup
        rw [hids]
        exact (hperm.nodup_iff).mpr (List.nodup_cons.mpr ⟨hnotmem, hu⟩)
      · intro id0 hid0 r0 hl0
        simp only [createJob, lookup_put] at hl0
        by_cases h : id0 = id
        · rw [if_pos h] at hl0
          cases hl0
          exact ⟨by simp, by simp⟩
        · rw [if_neg h] at hl0
          have hmem : id0 ∈ itemIds s := by
            rw [hids] at hid0
            rcases List.mem_cons.mp ((hperm.mem_iff).mp hid0) with h' | h'
            · exact absurd h' h
            · exact h'
          exact hnt id0 hmem r0 hl0
      · intro w hw r0 hl0
        have hne : w.jobId ≠ id := hfreshi w hw
        simp only [createJob, lookup_put, if_neg hne] at hl0
        exact hin w hw r0 hl0
  | cancel id =>
      refine ⟨hu, ?_, ?_⟩
      · intro id0 hid0 r0 hl0
        by_cases h : id0 = id
        · subst h
          rw [lookup_cancelRoute_self] at hl0
          cases hl : s.store.lookup id0 with
          | none => rw [hl] at hl0; simp at hl0
          | some r =>
              rw [hl] at hl0
              by_cases hc : r.status = .processing ∨ r.status = .queued
              · simp only [hc, if_true] at hl0
                simp at hl0
                subst hl0
                exact ⟨by simp, by simp⟩
              · simp [hc] at hl0
        · rw [lookup_cancelRoute_ne _ _ _ h] at hl0
          exact hnt id0 hid0 r0 hl0
      · intro w hw r0 hl0
        by_cases h : w.jobId = id
        · rw [h, lookup_cancelRoute_self] at hl0
          cases hl : s.store.lookup id with
          | none => rw [hl] at hl0; simp at hl0
          | some r =>
              rw [hl] at hl0
              by_cases hc : r.status = .processing ∨ r.status = .queued
              · simp only [hc, if_true] at hl0
                simp at hl0
                subst hl0
                exact Or.inr rfl
              · simp [hc] at hl0
        · rw [lookup_cancelRoute_ne _ _ _ h] at hl0
          exact hin w hw r0 hl0
  | start w rest hq hidle =>
      have hids : itemIds s = w.jobId :: rest.map (fun w => w.jobId) := by
        simp [itemIds, inflightIds, hq, hidle]
      refine ⟨?_, ?_, ?_⟩
      · show (itemIds _).Nodup
        have h2 : itemIds ⟨startProcessing s.store w.jobId, rest, some (incAttempt w)⟩
            = w.jobId :: rest.map (fun w => w.jobId) := by
          simp [itemIds, inflightIds, incAttempt]
        rw [h2, ← hids]
        exact hu
      · intro id0 hid0 r0 hl0
        simp only [startProcessing, lookup_modifyRec] at hl0
        by_cases h : id0 = w.jobId
        · rw [if_pos h] at hl0
          cases hl : s.store.lookup w.jobId with
          | none => rw [hl] at hl0; simp at hl0
          | some r =>
              rw [hl] at hl0
              simp at hl0
              subst hl0
              exact ⟨by simp, by simp⟩
        · rw [if_neg h] at hl0
          have hmem : id0 ∈ itemIds s := by
            have h3 : id0 ∈ itemIds ⟨startProcessing s.store w.jobId, rest,
                some (incAttempt w)⟩ := hid0
            simp only [itemIds, inflightIds, incAttempt] at h3
            rw [hids]
            simp only [List.mem_cons]
            rcases List.mem_append.mp h3 with h' | h'
            · simp at h'
              exact absurd h' h
            · exact Or.inr h'
          exact hnt id0 hmem r0 hl0
      · intro w' hw' r0 hl0
        have hw'eq : incAttempt w = w' := by injection hw'
        subst hw'eq
        unfold startProcessing at hl0
        simp only [incAttempt] at hl0
        rw [lookup_modifyRec_self] at hl0
        cases hl : s.store.lookup w.jobId with
        | none => rw [hl] at hl0; simp at hl0
        | some r =>
            rw [hl] at hl0
            simp at hl0
            subst hl0
            exact Or.inl rfl
  | progressCb w p hinf =>
      refine ⟨hu, ?_, ?_⟩
      · intro id0 hid0 r0 hl0
        simp only [progressUpdate, lookup_modifyRec] at hl0
        by_cases h : id0 = w.jobId
        · rw [if_pos h] at hl0
          cases hl : s.store.lookup w.jobId with
          | none => rw [hl] at hl0; simp at hl0
          | some r =>
              rw [hl] at hl0
              simp at hl0
              subst hl0
              have hmem : w.jobId ∈ itemIds s := by
                unfold itemIds
                exact List.mem_append.mpr (Or.inl (mem_inflightIds.mpr ⟨w, hinf, rfl⟩))
              have hterm := hnt w.jobId hmem r hl
              exact ⟨hterm.1, hterm.2⟩
        · rw [if_neg h] at hl0
          exact hnt id0 hid0 r0 hl0
      · intro w' hw' r0 hl0
        have hw'eq : w = w' := by
          rw [hinf] at hw'
          injection hw'
        subst hw'eq
        unfold progressUpdate at hl0
        rw [lookup_modifyRec_self] at hl0
        cases hl : s.store.lookup w.jobId with
        | none => rw [hl] at hl0; simp at hl0
        | some r =>
            rw [hl] at hl0
            simp at hl0
            subst hl0
            exact hin w hinf r hl
  | finishOk w hinf =>
      have hids : itemIds s = w.jobId :: s.queue.map (fun w => w.jobId) := by
        simp [itemIds, inflightIds, hinf]
      have hu' : (itemIds s).Nodup := hu
      rw [hids] at hu'
      have hnotq : w.jobId ∉ s.queue.map (fun w => w.jobId) := (List.nodup_cons.mp hu').1
      refine ⟨?_, ?_, ?_⟩
      · show (itemIds _).Nodup
        have h2 : itemIds ⟨completeJob s.store w.jobId, s.queue, none⟩
            = s.queue.map (fun w => w.jobId) := by
          simp [itemIds, inflightIds]
        rw [h2]
        exact (List.nodup_cons.mp hu').2
      · intro id0 hid0 r0 hl0
        have hid0' : id0 ∈ s.queue.map (fun w => w.jobId) := by
          simpa [itemIds, inflightIds] using hid0
        have hne : id0 ≠ w.jobId := fun h => hnotq (h ▸ hid0')
        simp only [completeJob, lookup_modifyRec, if_neg hne] at hl0
        refine hnt id0 ?_ r0 hl0
        rw [hids]
        exact List.mem_cons_of_mem _ hid0'
      · intro w' hw' r0 hl0
        cases hw'
  | finishErrRetry w hinf hlt =>
      have hids : itemIds s = w.jobId :: s.queue.map (fun w => w.jobId) := by
        simp [itemIds, inflightIds, hinf]
      have hperm : List.Perm
          (itemIds ⟨s.store, s.queue ++ [JobQueue.add w.jobId w.opts], none⟩)
          (itemIds s) := by
        rw [hids]
        have h2 : itemIds ⟨s.store, s.queue ++ [JobQueue.add w.jobId w.opts], none⟩
            = s.queue.map (fun w => w.jobId) ++ [w.jobId] := by
          simp [itemIds, inflightIds, JobQueue.add]
        rw [h2]
        exact List.perm_append_singleton _ _
      refine ⟨?_, ?_, ?_⟩
      · exact (hperm.nodup_iff).mpr hu
      · intro id0 hid0 r0 hl0
        exact hnt id0 ((hperm.mem_iff).mp hid0) r0 hl0
      · intro w' hw' r0 hl0
        cases hw'
  | finishErrFatal w err hinf hge =>
      have hids : itemIds s = w.jobId :: s.queue.map (fun w => w.jobId) := by
        simp [itemIds, inflightIds, hinf]
      have hu' : (itemIds s).Nodup := hu
      rw [hids] at hu'
      have hnotq : w.jobId ∉ s.queue.map (fun w => w.jobId) := (List.nodup_cons.mp hu').1
      refine ⟨?_, ?_, ?_⟩
      · show (itemIds _).Nodup
        have h2 : itemIds ⟨failJob s.store w.jobId err, s.queue, none⟩
            = s.queue.map (fun w => w.jobId) := by
          simp [itemIds, inflightIds]
        rw [h2]
        exact (List.nodup_cons.mp hu').2
      · intro id0 hid0 r0 hl0
        have hid0' : id0 ∈ s.queue.map (fun w => w.jobId) := by
          simpa [itemIds, inflightIds] using hid0
        have hne : id0 ≠ w.jobId := fun h => hnotq (h ▸ hid0')
        simp only [failJob, lookup_modifyRec, if_neg hne] at hl0
        refine hnt id0 ?_ r0 hl0
        rw [hids]
        exact List.mem_cons_of_mem _ hid0'
      · intro w' hw' r0 hl0
        cases hw'

theorem reach_sysInv {s : SysState} (hr : Reach s) : SysInv s := by
  induction hr with
  | init =>
      refine ⟨List.nodup_nil, ?_, ?_⟩
      · intro id hid
        simp [itemIds, inflightIds] at hid
      · intro w hw
        cases hw
  | step hr hst ih => exact sysInv_step ih hst

/-- The transition relation the code actually respects, per current
status: `completed` and `failed` change only by deletion; `queued` moves to
`processing` or `cancelled`; `processing` moves to `completed`, `failed` or
`cancelled`; `cancelled` is not sticky — it can be deleted, or overwritten
back to `processing`, `completed` or `failed` by the in-flight runner. -/
def transitionOk : JStatus → Option JStatus → Prop
  | .queued, st? =>
      st? = some .queued ∨ st? = some .processing ∨ st? = some .cancelled
  | .processing, st? =>
      st? = some .processing ∨ st? = some .completed
      ∨ st? = some .failed ∨ st? = some .cancelled
  | .completed, st? => st? = some .completed ∨ st? = none
  | .failed, st? => st? = some .failed ∨ st? = none
  | .cancelled, st? =>
      st? = some .cancelled ∨ st? = none ∨ st? = some .processing
      ∨ st? = some .completed ∨ st? = some .failed

theorem transitionOk_refl (st : JStatus) : transitionOk st (some st) := by
  cases st <;> simp [transitionOk]

/-- C2 (amended): along every reachable step of the runner/store system,
each job's status change obeys `transitionOk`: `queued` only moves to
`processing`/`cancelled`, `processing` only to
`completed`/`failed`/`cancelled`, and the terminal `completed`/`failed`
records change only by deletion — but a `cancelled` record can still be
deleted or overwritten to `processing`/`completed`/`failed` by the
in-flight work item's writes (last write wins). -/
theorem status_transitions_ok {s t : SysState} (hr : Reach s) (hst : SysStep s t)
    (id : String) (r : JobRec) (hl : s.store.lookup id = some r) :
    transitionOk r.status ((t.store.lookup id).map (fun x => x.status)) := by
  obtain ⟨hu, hnt, hin⟩ := reach_sysInv hr
  cases hst with
  | create id1 opts hfresh hfreshq hfreshi =>
      have hne : id ≠ id1 := by
        intro h
        rw [h, hfresh] at hl
        cases hl
      simp only [createJob, lookup_put, if_neg hne, hl]
      exact transitionOk_refl r.status
  | cancel id1 =>
      by_cases h : id = id1
      · subst h
        rw [lookup_cancelRoute_self, hl]
        cases hs : r.status <;> simp [transitionOk, hs]
      · rw [lookup_cancelRoute_ne _ _ _ h, hl]
        exact transitionOk_refl r.status
  | start w rest hq hidle =>
      simp only [startProcessing, lookup_modifyRec]
      by_cases h : id = w.jobId
      · subst h
        rw [if_pos rfl, hl]
        have hmem : w.jobId ∈ itemIds s := by
          unfold itemIds
          rw [hq]
          refine List.mem_append.mpr (Or.inr ?_)
          exact List.mem_map.mpr ⟨w, List.mem_cons_self _ _, rfl⟩
        have hterm := hnt w.jobId hmem r hl
        cases hs : r.status <;> simp_all [transitionOk]
      · rw [if_neg h, hl]
        exact transitionOk_refl r.status
  | progressCb w p hinf =>
      simp only [progressUpdate, lookup_modifyRec]
      by_cases h : id = w.jobId
      · subst h
        rw [if_pos rfl, hl]
        exact transitionOk_refl r.status
      · rw [if_neg h, hl]
        exact transitionOk_refl r.status
  | finishOk w hinf =>
      simp only [completeJob, lookup_modifyRec]
      by_cases h : id = w.jobId
      · subst h
        rw [if_pos rfl, hl]
        have hsw := hin w hinf r hl
        rcases hsw with hs | hs <;> rw [hs] <;> simp [transitionOk]
      · rw [if_neg h, hl]
        exact transitionOk_refl r.status
  | finishErrRetry w hinf hlt =>
      simp only [hl]
      exact transitionOk_refl r.status
  | finishErrFatal w err hinf hge =>
      simp only [failJob, lookup_modifyRec]
      by_cases h : id = w.jobId
      · subst h
        rw [if_pos rfl, hl]
        have hsw := hin w hinf r hl
        rcases hsw with hs | hs <;> rw [hs] <;> simp [transitionOk]
      · rw [if_neg h, hl]
        exact transitionOk_refl r.status

/-- Witness: on the reachable one-job system, starting the queued item
transitions the job from `queued` to `processing`, an allowed change. -/
theorem status_transitions_ok_witness :
    transitionOk JStatus.queued
      ((({ store := startProcessing (createJob [] "j") "j",
           queue := [],
           inflight := some (incAttempt (JobQueue.add "j" routeRetryOptions)) } :
            SysState).store.lookup "j").map (fun x => x.status)) := by
  have hr : Reach ⟨createJob [] "j", [] ++ [JobQueue.add "j" routeRetryOptions], none⟩ :=
    Reach.step Reach.init
      (SysStep.create ⟨[], [], none⟩ "j" routeRetryOptions rfl (by simp) (by simp))
  have hst : SysStep ⟨createJob [] "j", [] ++ [JobQueue.add "j" routeRetryOptions], none⟩
      ⟨startProcessing (createJob [] "j") "j", [],
       some (incAttempt (JobQueue.add "j" routeRetryOptions))⟩ :=
    SysStep.start _ (JobQueue.add "j" routeRetryOptions) [] rfl rfl
  exact status_transitions_ok hr hst "j" ⟨.queued, 0, none⟩ rfl

/-- C2 counterexample: a job cancelled while its work item is in flight is
afterwards set to `completed` by the runner's success write — a transition
out of the terminal `cancelled` state that is not a deletion, on a
reachable system state. -/
theorem cancelled_job_resurrected :
    ∃ s t : SysState, Reach s ∧ SysStep s t
      ∧ ((s.store.lookup "j").map (fun x => x.status)) = some JStatus.cancelled
      ∧ ((t.store.lookup "j").map (fun x => x.status)) = some JStatus.completed := by
  refine ⟨⟨(cancelRoute (startProcessing (createJob [] "j") "j") "j").2, [],
          some (incAttempt (JobQueue.add "j" routeRetryOptions))⟩,
         ⟨completeJob (cancelRoute (startProcessing (createJob [] "j") "j") "j").2
            (incAttempt (JobQueue.add "j" routeRetryOptions)).jobId, [], none⟩,
         ?_, ?_, ?_, ?_⟩
  · have h1 : Reach ⟨createJob [] "j", [] ++ [JobQueue.add "j" routeRetryOptions], none⟩ :=
      Reach.step Reach.init
        (SysStep.create ⟨[], [], none⟩ "j" routeRetryOptions rfl (by simp) (by simp))
    have h2 : Reach ⟨startProcessing (createJob [] "j") "j", [],
        some (incAttempt (JobQueue.add "j" routeRetryOptions))⟩ :=
      Reach.step h1 (SysStep.start _ (JobQueue.add "j" routeRetryOptions) [] rfl rfl)
    exact Reach.step h2 (SysStep.cancel _ "j")
  · exact SysStep.finishOk _ (incAttempt (JobQueue.add "j" routeRetryOptions)) rfl
  · decide
  · decide

end VideoDL
